import Mathlib

/-!
Shallow embedding of `src/app/multimodal_db.py` (class `MultimodalDatabase`):
ingestion (`add_articles`, `_encode_image`), retrieval (`search`) and
statistics (`get_stats`), together with a model of the vector-store
collections the class uses. Machine floats of the source are modelled by
rationals; the store and the embedding models are modelled by explicit
environment functions, with `Except` values standing for Python exceptions.
-/

/-- Stable insertion of `a` into `l` with respect to the boolean comparison
`le`: `a` is placed before the first element `b` with `le a b = true`. -/
def insertS {α : Type} (le : α → α → Bool) (a : α) : List α → List α
  | [] => [a]
  | b :: t => if le a b then a :: b :: t else b :: insertS le a t

/-- Stable insertion sort with respect to `le`; models Python's stable
`list.sort`: an element placed earlier in the input stays before a
later element it ties with. -/
def sortS {α : Type} (le : α → α → Bool) : List α → List α
  | [] => []
  | a :: t => insertS le a (sortS le t)

theorem perm_insertS {α : Type} (le : α → α → Bool) (a : α) (l : List α) :
    List.Perm (insertS le a l) (a :: l) := by
  induction l with
  | nil => simp [insertS]
  | cons b t ih =>
    by_cases h : le a b = true
    · simp [insertS, h]
    · rw [insertS, if_neg h]
      exact (List.Perm.cons b ih).trans (List.Perm.swap a b t)

theorem perm_sortS {α : Type} (le : α → α → Bool) (l : List α) :
    List.Perm (sortS le l) l := by
  induction l with
  | nil => simp [sortS]
  | cons a t ih => exact (perm_insertS le a (sortS le t)).trans (List.Perm.cons a ih)

theorem mem_insertS {α : Type} {le : α → α → Bool} {a x : α} {l : List α} :
    x ∈ insertS le a l ↔ x = a ∨ x ∈ l := by
  rw [(perm_insertS le a l).mem_iff]
  simp

theorem pairwise_insertS {α : Type} {le : α → α → Bool}
    (htot : ∀ x y, le x y = true ∨ le y x = true)
    (htrans : ∀ x y z, le x y = true → le y z = true → le x z = true)
    (a : α) {l : List α} (h : l.Pairwise fun x y => le x y = true) :
    (insertS le a l).Pairwise fun x y => le x y = true := by
  induction l with
  | nil => simp [insertS]
  | cons b t ih =>
    rcases List.pairwise_cons.mp h with ⟨hb, ht⟩
    by_cases hab : le a b = true
    · rw [insertS, if_pos hab]
      refine List.pairwise_cons.mpr ⟨?_, h⟩
      intro x hx
      rcases List.mem_cons.mp hx with rfl | hx
      · exact hab
      · exact htrans a b x hab (hb x hx)
    · rw [insertS, if_neg hab]
      refine List.pairwise_cons.mpr ⟨?_, ih ht⟩
      intro x hx
      rcases mem_insertS.mp hx with rfl | hx
      · rcases htot x b with h1 | h1
        · exact absurd h1 hab
        · exact h1
      · exact hb x hx

theorem pairwise_sortS {α : Type} {le : α → α → Bool}
    (htot : ∀ x y, le x y = true ∨ le y x = true)
    (htrans : ∀ x y z, le x y = true → le y z = true → le x z = true)
    (l : List α) :
    (sortS le l).Pairwise fun x y => le x y = true := by
  induction l with
  | nil => simp [sortS]
  | cons a t ih => exact pairwise_insertS htot htrans a ih

theorem filter_insertS_pos {α : Type} {le : α → α → Bool} {p : α → Bool} {a : α}
    (hp : p a = true) (h : ∀ b, p b = true → le a b = true) (l : List α) :
    (insertS le a l).filter p = a :: l.filter p := by
  induction l with
  | nil => simp [insertS, hp]
  | cons b t ih =>
    by_cases hab : le a b = true
    · rw [insertS, if_pos hab]
      simp [List.filter_cons, hp]
    · rw [insertS, if_neg hab]
      have hb : p b = false := by
        cases hpb : p b
        · rfl
        · exact absurd (h b hpb) hab
      simp [List.filter_cons, hb, ih]

theorem filter_insertS_neg {α : Type} {le : α → α → Bool} {p : α → Bool} {a : α}
    (hp : p a = false) (l : List α) :
    (insertS le a l).filter p = l.filter p := by
  induction l with
  | nil => simp [insertS, hp]
  | cons b t ih =>
    by_cases hab : le a b = true
    · rw [insertS, if_pos hab]
      simp [List.filter_cons, hp]
    · rw [insertS, if_neg hab]
      simp [List.filter_cons, ih]

/-- Stability of `sortS`, as the classic filter formulation: restricted to
any class of mutually tied elements, the sort is the identity. -/
theorem filter_sortS {α : Type} {le : α → α → Bool} {p : α → Bool}
    (h : ∀ x y, p x = true → p y = true → le x y = true) (l : List α) :
    (sortS le l).filter p = l.filter p := by
  induction l with
  | nil => rfl
  | cons a t ih =>
    by_cases hp : p a = true
    · rw [sortS, filter_insertS_pos hp (fun b hb => h a b hp hb), ih,
        List.filter_cons, if_pos hp]
    · have hp2 : p a = false := by
        cases hpa : p a
        · rfl
        · exact absurd hpa hp
      rw [sortS, filter_insertS_neg hp2, ih]
      simp [List.filter_cons, hp2]

theorem map_insertS {α : Type} {le : α → α → Bool} {f : α → α}
    (hf : ∀ x y, le (f x) (f y) = le x y) (a : α) (l : List α) :
    (insertS le a l).map f = insertS le (f a) (l.map f) := by
  induction l with
  | nil => rfl
  | cons b t ih =>
    by_cases hab : le a b = true
    · simp [insertS, hab, hf]
    · have hab2 : le a b = false := by
        cases h2 : le a b
        · rfl
        · exact absurd h2 hab
      simp [insertS, hab2, hf, ih]

theorem map_sortS {α : Type} {le : α → α → Bool} {f : α → α}
    (hf : ∀ x y, le (f x) (f y) = le x y) (l : List α) :
    (sortS le l).map f = sortS le (l.map f) := by
  induction l with
  | nil => rfl
  | cons a t ih => rw [sortS, map_insertS hf, ih, List.map_cons, sortS]

/-!
## Data model

`Meta` models the flat metadata dict written by `add_articles` (line 70-76 /
92-97): the structured sub-fields `images` and `metadata` are stored as
JSON-encoded strings (`json.dumps`); `image_path` and `parent_article` are
only populated on image records and are `""` on text records.
-/

structure Meta where
  title : String
  url : String
  images : String
  mdata : String
  type : String
  image_path : String
  parent_article : String
deriving DecidableEq, Repr

/-- One stored record of a ChromaDB collection: id, document text,
embedding vector (floats modelled by rationals), metadata. -/
structure Rec where
  id : String
  doc : String
  emb : List ℚ
  meta : Meta
deriving DecidableEq, Repr

/-- Modelled from the spec: a ChromaDB collection (external library) as a
list of records with batch-upsert `add`, nearest-neighbor `query` and
`count`, per the VectorStore contract of the spec (section 4.2). -/
structure Collection where
  recs : List Rec
deriving DecidableEq, Repr

def Collection.ids (c : Collection) : List String := c.recs.map (·.id)

def Collection.hasId (c : Collection) (i : String) : Bool :=
  c.recs.any fun r => r.id == i

/-- Upsert of one record: supplying an existing id replaces that record,
otherwise the record is appended (spec section 4.2, batch `add`). -/
def Collection.upsert (c : Collection) (r : Rec) : Collection :=
  if c.hasId r.id then ⟨c.recs.map fun x => if x.id == r.id then r else x⟩
  else ⟨c.recs ++ [r]⟩

def Collection.addBatch (c : Collection) (b : List Rec) : Collection :=
  b.foldl Collection.upsert c

def Collection.count (c : Collection) : Nat := c.recs.length

/-- The two partitions held by `MultimodalDatabase`:
`text_collection` and `image_collection`. -/
structure DB where
  text : Collection
  image : Collection
deriving DecidableEq, Repr

/-- An input article. Optional fields model Python attribute presence:
`none` means the attribute is absent (`hasattr` false / `getattr` default). -/
structure Article where
  title : Option String
  content : Option String
  url : Option String
  images : Option (List String)
  metaMap : Option (List (String × String))
deriving DecidableEq, Repr

/-- A call to one of the embedding models, recorded in the ingestion trace
so that "no embedding is computed" is expressible. -/
inductive EncCall where
  | text (s : String)
  | image (p : String)
deriving DecidableEq, Repr

/-- The records accumulated by one `add_articles` run before the two batch
`add` calls, plus the trace of embedding-model invocations made. -/
structure Batches where
  texts : List Rec
  images : List Rec
  trace : List EncCall
deriving DecidableEq, Repr

/-- The execution environment of `MultimodalDatabase`: the embedding
models, the distance function applied by the store's nearest-neighbor
queries, JSON (de)serialization, and fault injection for the store queries
(`some e` means the underlying store call raises exception `e`). -/
structure Env where
  textEncode : String → List ℚ
  clipAvailable : Bool
  clipTextEncode : String → Except String (List ℚ)
  encodeImage : String → Except String (List ℚ)
  textDist : List ℚ → List ℚ → ℚ
  imageDist : List ℚ → List ℚ → ℚ
  textQueryFault : Option String
  imageQueryFault : Option String
  jsonLoads : String → List String
  jsonDumps : List String → String
  jsonDumpsKV : List (String × String) → String

/-!
## Ingestion (`add_articles`, lines 49-124, and `_encode_image`, 126-144)
-/

def articleId (i : Nat) : String := "article_" ++ toString i

def imageId (i j : Nat) : String := "image_" ++ toString i ++ "_" ++ toString j

/-- The metadata dict built at lines 70-76 for a text record. -/
def mkMeta (env : Env) (a : Article) (t : String) : Meta :=
  { title := t
    url := a.url.getD ""
    images := env.jsonDumps (a.images.getD [])
    mdata := env.jsonDumpsKV (a.metaMap.getD [])
    type := "text"
    image_path := ""
    parent_article := "" }

/-- The metadata derived for one image record at lines 92-97:
a copy of the text metadata updated with type, image path and parent id. -/
def mkImageMeta (m : Meta) (p : String) (i : Nat) : Meta :=
  { m with type := "image", image_path := p, parent_article := articleId i }

/-- `_encode_image` (lines 126-144): returns `none` when the CLIP model is
unavailable, and catches any exception of the encoder, returning `none`. -/
def encodeImageOpt (env : Env) (p : String) : Option (List ℚ) :=
  if env.clipAvailable then (env.encodeImage p).toOption else none

/-- The image records collected for one valid article at index `i`
(lines 86-105): each image that encodes successfully yields a record with
id `image_i_j`; a failing image is logged and skipped. -/
def imageRecsFor (env : Env) (i : Nat) (a : Article) (t : String) (m : Meta) :
    List Rec :=
  (a.images.getD []).enum.filterMap fun jp =>
    match encodeImageOpt env jp.2 with
    | some v => some ⟨imageId i jp.1, "Image from: " ++ t, v, mkImageMeta m jp.2 i⟩
    | none => none

/-- The accumulation loop of `add_articles` (lines 61-105), starting at
article index `i`: an article without a `title` or `content` attribute is
skipped; a valid article yields one text record with id `article_i` and
zero or more image records. -/
def collectFrom (env : Env) : Nat → List Article → Batches
  | _, [] => ⟨[], [], []⟩
  | i, a :: rest =>
    match a.title, a.content with
    | some t, some c =>
      let dtext := t ++ "\n\n" ++ c
      let m := mkMeta env a t
      let trec : Rec := ⟨articleId i, dtext, env.textEncode dtext, m⟩
      let irecs := imageRecsFor env i a t m
      let itrace := if env.clipAvailable
        then (a.images.getD []).map EncCall.image else []
      let restB := collectFrom env (i + 1) rest
      ⟨trec :: restB.texts, irecs ++ restB.images,
        EncCall.text dtext :: (itrace ++ restB.trace)⟩
    | _, _ => collectFrom env (i + 1) rest

/-- `add_articles` (lines 49-124): collect all records, then perform at most
two batch `add` calls, each skipped when its batch is empty. -/
def add_articles (env : Env) (db : DB) (arts : List Article) : DB :=
  let b := collectFrom env 0 arts
  let db1 := if b.texts.isEmpty then db
    else { db with text := db.text.addBatch b.texts }
  if b.images.isEmpty then db1
  else { db1 with image := db1.image.addBatch b.images }

/-!
## Retrieval (`search`, lines 146-210) and statistics (`get_stats`, 212-225)
-/

/-- One nearest-neighbor hit as returned by a collection query with
`include=[documents, metadatas, distances]`. -/
structure Hit where
  doc : String
  meta : Meta
  dist : ℚ
deriving DecidableEq, Repr

def distLE (a b : Hit) : Bool := decide (a.dist ≤ b.dist)

/-- Modelled from the spec: a collection `query` returns hits ordered
ascending by distance, at most `k` of them (spec section 4.2). -/
def Collection.query (c : Collection) (dist : List ℚ → List ℚ → ℚ)
    (qv : List ℚ) (k : Nat) : List Hit :=
  (sortS distLE (c.recs.map fun r => ⟨r.doc, r.meta, dist qv r.emb⟩)).take k

/-- A processed result dict of `search`. Text results carry the decoded
image-reference list; image results carry `image_path` (lines 166-172 and
197-203). -/
structure SearchResult where
  type : String
  content : String
  metadata : Meta
  similarity : ℚ
  images : List String
  image_path : Option String
deriving DecidableEq, Repr

/-- Text-hit processing, lines 166-172: similarity is `1 - distance`; the
stored image references are decoded only when `include_images` is true. -/
def processTextHit (env : Env) (inc : Bool) (h : Hit) : SearchResult :=
  ⟨"text", h.doc, h.meta, 1 - h.dist,
    if inc then env.jsonLoads h.meta.images else [], none⟩

/-- Image-hit processing, lines 197-203: similarity is `1 - distance`. -/
def processImageHit (h : Hit) : SearchResult :=
  ⟨"image", h.doc, h.meta, 1 - h.dist, [], some h.meta.image_path⟩

/-- The comparison used at line 209: Python's stable
`sort(key=similarity, reverse=True)`. -/
def simLE (a b : SearchResult) : Bool := decide (b.similarity ≤ a.similarity)

/-- The processed text results of `search` (lines 152-172). A store-level
fault of this mandatory query is handled separately in `search`. -/
def textResults (env : Env) (db : DB) (q : String) (k : Nat) (inc : Bool) :
    List SearchResult :=
  (db.text.query env.textDist (env.textEncode q) k).map (processTextHit env inc)

/-- The image hits obtained inside the `try` block at lines 176-189: a
failing CLIP text encoding or a failing image-collection query is caught,
yielding zero hits; otherwise the image collection is queried with
`n_results // 2`. -/
def imageQueryHits (env : Env) (db : DB) (q : String) (k : Nat) : List Hit :=
  match env.clipTextEncode q with
  | .error _ => []
  | .ok qiv =>
    match env.imageQueryFault with
    | some _ => []
    | none => db.image.query env.imageDist qiv (k / 2)

/-- The processed image results appended at lines 192-203. -/
def imageBranch (env : Env) (db : DB) (q : String) (k : Nat) :
    List SearchResult :=
  (imageQueryHits env db q k).map processImageHit

/-- The full processed-results list before sorting: text results first,
then — only if `include_images` and the CLIP model is available
(line 175) — the image results. -/
def mergedResults (env : Env) (db : DB) (q : String) (k : Nat) (inc : Bool) :
    List SearchResult :=
  textResults env db q k inc ++
    (if inc && env.clipAvailable then imageBranch env db q k else [])

/-- `search` (lines 146-210): a fault of the text-collection query
propagates; otherwise the merged results are stably sorted by similarity
descending and truncated to `n_results`. -/
def search (env : Env) (db : DB) (q : String) (k : Nat) (inc : Bool) :
    Except String (List SearchResult) :=
  match env.textQueryFault with
  | some e => .error e
  | none => .ok ((sortS simLE (mergedResults env db q k inc)).take k)

/-- The dict returned by `get_stats` (lines 212-225). -/
structure Stats where
  total_documents : Nat
  text_documents : Nat
  image_documents : Nat
  breakdown_text : Nat
  breakdown_image : Nat
deriving DecidableEq, Repr

/-- `get_stats` (lines 212-225). -/
def get_stats (db : DB) : Stats :=
  ⟨db.text.count + db.image.count, db.text.count, db.image.count,
    db.text.count, db.image.count⟩

/-!
## Helper lemmas
-/

theorem simLE_total : ∀ x y : SearchResult, simLE x y = true ∨ simLE y x = true := by
  intro x y
  rcases le_total y.similarity x.similarity with h | h
  · exact Or.inl (decide_eq_true h)
  · exact Or.inr (decide_eq_true h)

theorem simLE_trans : ∀ x y z : SearchResult,
    simLE x y = true → simLE y z = true → simLE x z = true := by
  intro x y z h1 h2
  exact decide_eq_true (le_trans (of_decide_eq_true h2) (of_decide_eq_true h1))

theorem search_ok_of_no_fault {env : Env} (db : DB) (q : String) (k : Nat)
    (inc : Bool) (h : env.textQueryFault = none) :
    search env db q k inc
      = .ok ((sortS simLE (mergedResults env db q k inc)).take k) := by
  unfold search
  rw [h]

theorem search_ok_inv {env : Env} {db : DB} {q : String} {k : Nat} {inc : Bool}
    {res : List SearchResult} (h : search env db q k inc = .ok res) :
    env.textQueryFault = none
      ∧ res = (sortS simLE (mergedResults env db q k inc)).take k := by
  unfold search at h
  cases henv : env.textQueryFault with
  | some e => rw [henv] at h; exact absurd h (by simp)
  | none =>
    rw [henv] at h
    exact ⟨rfl, (Except.ok.injEq _ _ ▸ h).symm⟩

theorem mem_of_mem_search {m : List SearchResult} {k : Nat} {r : SearchResult}
    (h : r ∈ (sortS simLE m).take k) : r ∈ m :=
  (perm_sortS simLE m).mem_iff.mp ((List.take_sublist k _).subset h)

theorem hasId_eq_true_iff {c : Collection} {i : String} :
    c.hasId i = true ↔ i ∈ c.ids := by
  constructor
  · intro h
    rcases List.any_eq_true.mp h with ⟨r, hr, hbeq⟩
    exact List.mem_map.mpr ⟨r, hr, beq_iff_eq.mp hbeq⟩
  · intro h
    rcases List.mem_map.mp h with ⟨r, hr, hid⟩
    exact List.any_eq_true.mpr ⟨r, hr, beq_iff_eq.mpr hid⟩

theorem ids_upsert_mem {c : Collection} {r : Rec} (h : r.id ∈ c.ids) :
    (c.upsert r).ids = c.ids := by
  unfold Collection.upsert
  rw [if_pos (hasId_eq_true_iff.mpr h)]
  show (c.recs.map fun x => if x.id == r.id then r else x).map (·.id)
    = c.recs.map (·.id)
  rw [List.map_map]
  have hfun : ((fun x : Rec => x.id) ∘ fun x : Rec => if x.id == r.id then r else x)
      = fun x : Rec => x.id := by
    funext x
    by_cases hx : x.id = r.id
    · simp [Function.comp, beq_iff_eq, hx]
    · simp [Function.comp, beq_iff_eq, hx]
  rw [hfun]

theorem count_upsert_mem {c : Collection} {r : Rec} (h : r.id ∈ c.ids) :
    (c.upsert r).count = c.count := by
  unfold Collection.upsert
  rw [if_pos (hasId_eq_true_iff.mpr h)]
  simp [Collection.count]

theorem ids_upsert_not_mem {c : Collection} {r : Rec} (h : r.id ∉ c.ids) :
    (c.upsert r).ids = c.ids ++ [r.id] := by
  unfold Collection.upsert
  rw [if_neg (fun hh => h (hasId_eq_true_iff.mp hh))]
  simp [Collection.ids]

theorem mem_ids_upsert_self (c : Collection) (r : Rec) :
    r.id ∈ (c.upsert r).ids := by
  by_cases h : r.id ∈ c.ids
  · rw [ids_upsert_mem h]; exact h
  · rw [ids_upsert_not_mem h]; simp

theorem mem_ids_upsert_mono {c : Collection} {i : String} (x : Rec)
    (h : i ∈ c.ids) : i ∈ (c.upsert x).ids := by
  by_cases hx : x.id ∈ c.ids
  · rw [ids_upsert_mem hx]; exact h
  · rw [ids_upsert_not_mem hx]; exact List.mem_append_left _ h

theorem mem_ids_addBatch_mono {b : List Rec} {i : String} :
    ∀ {c : Collection}, i ∈ c.ids → i ∈ (c.addBatch b).ids := by
  induction b with
  | nil => intro c h; exact h
  | cons x t ih =>
    intro c h
    exact ih (mem_ids_upsert_mono x h)

theorem mem_ids_addBatch {b : List Rec} {r : Rec} (hr : r ∈ b) :
    ∀ {c : Collection}, r.id ∈ (c.addBatch b).ids := by
  induction b with
  | nil => cases hr
  | cons x t ih =>
    intro c
    rcases List.mem_cons.mp hr with rfl | hmem
    · show r.id ∈ ((c.upsert r).addBatch t).ids
      exact mem_ids_addBatch_mono (mem_ids_upsert_self c r)
    · exact ih hmem

theorem addBatch_of_ids_subset {b : List Rec} :
    ∀ {c : Collection}, (∀ r ∈ b, r.id ∈ c.ids) →
      (c.addBatch b).count = c.count ∧ (c.addBatch b).ids = c.ids := by
  induction b with
  | nil => intro c _; exact ⟨rfl, rfl⟩
  | cons x t ih =>
    intro c h
    have hx : x.id ∈ c.ids := h x (List.mem_cons_self x t)
    have hids := ids_upsert_mem hx
    have hcount := count_upsert_mem hx
    have hrec := ih (c := c.upsert x)
      (fun r hr => hids ▸ h r (List.mem_cons_of_mem x hr))
    exact ⟨hrec.1.trans hcount, hrec.2.trans hids⟩

theorem addBatch_twice_count (c : Collection) (b : List Rec) :
    ((c.addBatch b).addBatch b).count = (c.addBatch b).count :=
  (addBatch_of_ids_subset (fun _ hr => mem_ids_addBatch hr)).1

theorem add_articles_text (env : Env) (db : DB) (arts : List Article) :
    (add_articles env db arts).text
      = if (collectFrom env 0 arts).texts.isEmpty then db.text
        else db.text.addBatch (collectFrom env 0 arts).texts := by
  unfold add_articles
  by_cases h1 : (collectFrom env 0 arts).texts.isEmpty
  · by_cases h2 : (collectFrom env 0 arts).images.isEmpty
    · simp [h1, h2]
    · simp [h1, h2]
  · by_cases h2 : (collectFrom env 0 arts).images.isEmpty
    · simp [h1, h2]
    · simp [h1, h2]

theorem add_articles_image (env : Env) (db : DB) (arts : List Article) :
    (add_articles env db arts).image
      = if (collectFrom env 0 arts).images.isEmpty then db.image
        else db.image.addBatch (collectFrom env 0 arts).images := by
  unfold add_articles
  by_cases h1 : (collectFrom env 0 arts).texts.isEmpty
  · by_cases h2 : (collectFrom env 0 arts).images.isEmpty
    · simp [h1, h2]
    · simp [h1, h2]
  · by_cases h2 : (collectFrom env 0 arts).images.isEmpty
    · simp [h1, h2]
    · simp [h1, h2]

/-!
## Concrete instances used by witnesses and counterexamples
-/

def metaW : Meta := ⟨"T", "", "imgs", "{}", "text", "", ""⟩

def recW : Rec := ⟨"article_0", "T\n\nBody", [1], metaW⟩

def envW : Env :=
  { textEncode := fun _ => [1]
    clipAvailable := true
    clipTextEncode := fun _ => .ok [1]
    encodeImage := fun p => if p = "bad.jpg" then .error "corrupt" else .ok [1]
    textDist := fun _ _ => 0
    imageDist := fun _ _ => 0
    textQueryFault := none
    imageQueryFault := none
    jsonLoads := fun _ => ["img1.jpg"]
    jsonDumps := fun _ => "imgs"
    jsonDumpsKV := fun _ => "{}" }

def dbW : DB := ⟨⟨[recW]⟩, ⟨[]⟩⟩

def envDegraded : Env := { envW with clipAvailable := false }

def envTextFault : Env := { envW with textQueryFault := some "text store down" }

def envImageFault : Env := { envW with imageQueryFault := some "image store down" }

def envFarDist : Env := { envW with textDist := fun _ _ => 3/2 }

def articleGood : Article :=
  ⟨some "T", some "Body", none, some ["bad.jpg", "good.jpg"], none⟩

def articleImgOnly : Article := ⟨some "T", some "Body", none, some ["good.jpg"], none⟩

def articleBad : Article := ⟨none, some "Body", none, none, none⟩

def rInc : SearchResult := ⟨"text", "T\n\nBody", metaW, 1 - 0, ["img1.jpg"], none⟩

def rNoImg : SearchResult := ⟨"text", "T\n\nBody", metaW, 1 - 0, [], none⟩

def rFar : SearchResult := ⟨"text", "T\n\nBody", metaW, 1 - (3/2 : ℚ), [], none⟩

/-!
## Claims
-/

/-- C1: every sequence returned by `search` is the merge of the text-hit
results and the image-hit results, stably sorted by similarity descending
(ties keep each item's relative order from its own source list, text items
preceding image items of equal similarity — the filter formulation below),
truncated to at most `k` entries. -/
theorem search_merge_stable_sort_truncate :
    ∀ (env : Env) (db : DB) (q : String) (k : Nat) (inc : Bool)
      (res : List SearchResult), search env db q k inc = .ok res →
      res = (sortS simLE (mergedResults env db q k inc)).take k
      ∧ List.Pairwise (fun a b => b.similarity ≤ a.similarity) res
      ∧ List.Perm (sortS simLE (mergedResults env db q k inc))
          (mergedResults env db q k inc)
      ∧ (∀ c : ℚ, (sortS simLE (mergedResults env db q k inc)).filter
            (fun r => decide (r.similarity = c))
          = (mergedResults env db q k inc).filter
            (fun r => decide (r.similarity = c)))
      ∧ res.length ≤ k := by
  intro env db q k inc res hok
  rcases search_ok_inv hok with ⟨henv, rfl⟩
  refine ⟨rfl, ?_, perm_sortS simLE _, ?_, ?_⟩
  · have hp := pairwise_sortS simLE_total simLE_trans (mergedResults env db q k inc)
    have hp2 := List.Pairwise.sublist (List.take_sublist k _) hp
    exact hp2.imp fun h => of_decide_eq_true h
  · intro c
    refine filter_sortS ?_ _
    intro x y hx hy
    have hx2 := of_decide_eq_true hx
    have hy2 := of_decide_eq_true hy
    exact decide_eq_true (le_of_eq (hy2.trans hx2.symm))
  · rw [List.length_take]
    exact min_le_left _ _

theorem search_merge_stable_sort_truncate_w :
    search envW dbW "q" 2 true = .ok [rInc]
      ∧ [rInc] = (sortS simLE (mergedResults envW dbW "q" 2 true)).take 2 :=
  ⟨rfl, (search_merge_stable_sort_truncate envW dbW "q" 2 true [rInc] rfl).1⟩

/-- C2: a fault of the text-partition query propagates out of `search`,
while a failure in the image branch (CLIP query embedding or the
image-partition query) is caught and `search` still returns the text-only
results. -/
theorem search_text_fault_fatal_image_fault_nonfatal :
    ∀ (env : Env) (db : DB) (q : String) (k : Nat) (inc : Bool),
      (∀ e, env.textQueryFault = some e → search env db q k inc = .error e)
      ∧ (env.textQueryFault = none →
          ((∃ e, env.clipTextEncode q = .error e)
            ∨ (∃ e, env.imageQueryFault = some e)) →
          search env db q k true
            = .ok ((sortS simLE (textResults env db q k true)).take k)) := by
  intro env db q k inc
  constructor
  · intro e he
    unfold search
    rw [he]
  · intro hnone hfail
    have hnil : imageQueryHits env db q k = [] := by
      unfold imageQueryHits
      cases hct : env.clipTextEncode q with
      | error e => rfl
      | ok v =>
        rcases hfail with ⟨e, he⟩ | ⟨e, he⟩
        · rw [hct] at he
          exact absurd he (by simp)
        · rw [he]
    have hmerge : mergedResults env db q k true = textResults env db q k true := by
      unfold mergedResults imageBranch
      rw [hnil]
      simp
    rw [search_ok_of_no_fault db q k true hnone, hmerge]

theorem search_text_fault_fatal_image_fault_nonfatal_w :
    search envTextFault dbW "q" 5 true = .error "text store down"
      ∧ search envImageFault dbW "q" 5 true
          = .ok ((sortS simLE (textResults envImageFault dbW "q" 5 true)).take 5) :=
  ⟨(search_text_fault_fatal_image_fault_nonfatal envTextFault dbW "q" 5 true).1
      "text store down" rfl,
   (search_text_fault_fatal_image_fault_nonfatal envImageFault dbW "q" 5 true).2
      rfl (Or.inr ⟨"image store down", rfl⟩)⟩

/-- C8: `get_stats` reports `totalDocuments` as the sum of the two
partition counts, and each sub-count equals the respective partition's
`count()`; it is a pure function of the store state. -/
theorem get_stats_consistent :
    ∀ db : DB,
      (get_stats db).total_documents
          = (get_stats db).text_documents + (get_stats db).image_documents
      ∧ (get_stats db).text_documents = db.text.count
      ∧ (get_stats db).image_documents = db.image.count := by
  intro db
  exact ⟨rfl, rfl, rfl⟩

/-- C9: every processed result's similarity is exactly `1 - distance` for
the distance reported by the corresponding partition query — no clamping
into any range is performed. -/
theorem similarity_eq_one_minus_distance :
    (∀ (env : Env) (inc : Bool) (h : Hit),
        (processTextHit env inc h).similarity = 1 - h.dist)
    ∧ (∀ h : Hit, (processImageHit h).similarity = 1 - h.dist)
    ∧ ∀ (env : Env) (db : DB) (q : String) (k : Nat) (inc : Bool)
        (res : List SearchResult) (r : SearchResult),
        search env db q k inc = .ok res → r ∈ res →
        ∃ h : Hit,
          (h ∈ db.text.query env.textDist (env.textEncode q) k
            ∨ h ∈ imageQueryHits env db q k)
          ∧ r.similarity = 1 - h.dist := by
  refine ⟨fun _ _ _ => rfl, fun _ => rfl, ?_⟩
  intro env db q k inc res r hok hr
  rcases search_ok_inv hok with ⟨henv, rfl⟩
  have hm := mem_of_mem_search hr
  rw [mergedResults] at hm
  rcases List.mem_append.mp hm with hm | hm
  · rcases List.mem_map.mp hm with ⟨h, hh, rfl⟩
    exact ⟨h, Or.inl hh, rfl⟩
  · by_cases hc : (inc && env.clipAvailable) = true
    · rw [if_pos hc] at hm
      rcases List.mem_map.mp hm with ⟨h, hh, rfl⟩
      exact ⟨h, Or.inr hh, rfl⟩
    · rw [if_neg hc] at hm
      cases hm

theorem similarity_eq_one_minus_distance_w :
    search envFarDist dbW "q" 1 false = .ok [rFar]
      ∧ rFar.similarity < 0
      ∧ ∃ h : Hit,
          (h ∈ dbW.text.query envFarDist.textDist (envFarDist.textEncode "q") 1
            ∨ h ∈ imageQueryHits envFarDist dbW "q" 1)
          ∧ rFar.similarity = 1 - h.dist :=
  ⟨rfl, by norm_num [rFar],
   similarity_eq_one_minus_distance.2.2 envFarDist dbW "q" 1 false [rFar] rFar
     rfl (List.mem_singleton.mpr rfl)⟩

/-- C10: with `include_images = false` every returned result has Text
modality and an empty image-reference list, whatever image references the
matched record's stored metadata encodes. -/
theorem search_without_images_text_only_empty_refs :
    ∀ (env : Env) (db : DB) (q : String) (k : Nat) (res : List SearchResult)
      (r : SearchResult), search env db q k false = .ok res → r ∈ res →
      r.type = "text" ∧ r.images = [] := by
  intro env db q k res r hok hr
  rcases search_ok_inv hok with ⟨henv, rfl⟩
  have hm : r ∈ textResults env db q k false := by
    have h0 := mem_of_mem_search hr
    rw [show mergedResults env db q k false
        = textResults env db q k false ++ [] from rfl, List.append_nil] at h0
    exact h0
  rcases List.mem_map.mp hm with ⟨h, hh, rfl⟩
  exact ⟨rfl, rfl⟩

theorem search_without_images_text_only_empty_refs_w :
    search envW dbW "q" 5 false = .ok [rNoImg]
      ∧ (rNoImg.type = "text" ∧ rNoImg.images = []) :=
  ⟨rfl, search_without_images_text_only_empty_refs envW dbW "q" 5 [rNoImg]
    rNoImg rfl (List.mem_singleton.mpr rfl)⟩

def clearImages (r : SearchResult) : SearchResult := { r with images := [] }

def firstImages : Except String (List SearchResult) → List String
  | .ok (r :: _) => r.images
  | _ => []

/-- C3 counterexample: with the CLIP encoder unavailable, `include_images`
still changes the returned results, because line 171 decodes the stored
image references into the text results only when `include_images` is true:
on a store whose matched record carries a non-empty encoded image list the
two calls differ. -/
theorem degraded_includeImages_affects_results :
    search envDegraded dbW "q" 5 true ≠ search envDegraded dbW "q" 5 false := by
  intro h
  have h2 : (["img1.jpg"] : List String) = [] := congrArg firstImages h
  exact List.cons_ne_nil _ _ h2

/-- C3 (amended): when the CLIP encoder is unavailable, `search` skips the
image-partition query, returns only Text-modality results and raises no
error; `include_images` has no effect on which records are returned, their
order or their modality — it only controls whether the stored
image-reference lists are decoded into the text results' `images` field. -/
theorem search_degraded_text_only :
    ∀ (env : Env) (db : DB) (q : String) (k : Nat),
      env.clipAvailable = false → env.textQueryFault = none →
      search env db q k true
          = .ok ((sortS simLE (textResults env db q k true)).take k)
      ∧ (∀ r ∈ (sortS simLE (textResults env db q k true)).take k,
          r.type = "text")
      ∧ Except.map (List.map clearImages) (search env db q k true)
          = search env db q k false := by
  intro env db q k hclip hnone
  have hmergeT : mergedResults env db q k true = textResults env db q k true := by
    unfold mergedResults
    rw [hclip]
    simp
  have hmergeF : mergedResults env db q k false = textResults env db q k false := by
    unfold mergedResults
    simp
  refine ⟨?_, ?_, ?_⟩
  · rw [search_ok_of_no_fault db q k true hnone, hmergeT]
  · intro r hr
    rcases List.mem_map.mp (mem_of_mem_search hr) with ⟨h, hh, rfl⟩
    rfl
  · rw [search_ok_of_no_fault db q k true hnone,
      search_ok_of_no_fault db q k false hnone, hmergeT, hmergeF]
    have htf : (textResults env db q k true).map clearImages
        = textResults env db q k false := by
      unfold textResults
      rw [List.map_map]
      have hcomp : clearImages ∘ processTextHit env true = processTextHit env false :=
        funext fun _ => rfl
      rw [hcomp]
    show Except.ok (((sortS simLE (textResults env db q k true)).take k).map clearImages)
        = Except.ok ((sortS simLE (textResults env db q k false)).take k)
    rw [List.map_take,
      @map_sortS SearchResult simLE clearImages (fun _ _ => rfl)
        (textResults env db q k true),
      htf]

theorem search_degraded_text_only_w :
    envDegraded.clipAvailable = false
      ∧ Except.map (List.map clearImages) (search envDegraded dbW "q" 5 true)
          = search envDegraded dbW "q" 5 false :=
  ⟨rfl, (search_degraded_text_only envDegraded dbW "q" 5 rfl rfl).2.2⟩

/-- C4: an article with one corrupt image and one valid image contributes
exactly one image record (the valid one, at image index 1) and its text
record is still produced; the failure is absorbed inside the loop. -/
theorem corrupt_image_drops_only_that_image :
    ∀ (env : Env) (i : Nat) (t c : String) (u : Option String)
      (mm : Option (List (String × String))) (rest : List Article)
      (p1 p2 e : String) (v : List ℚ) (a : Article),
      a = ⟨some t, some c, u, some [p1, p2], mm⟩ →
      env.clipAvailable = true →
      env.encodeImage p1 = .error e →
      env.encodeImage p2 = .ok v →
      (collectFrom env i (a :: rest)).texts
          = ⟨articleId i, t ++ "\n\n" ++ c, env.textEncode (t ++ "\n\n" ++ c),
              mkMeta env a t⟩ :: (collectFrom env (i + 1) rest).texts
      ∧ (collectFrom env i (a :: rest)).images
          = ⟨imageId i 1, "Image from: " ++ t, v,
              mkImageMeta (mkMeta env a t) p2 i⟩
              :: (collectFrom env (i + 1) rest).images := by
  intro env i t c u mm rest p1 p2 e v a ha hclip h1 h2
  subst ha
  constructor
  · simp [collectFrom]
  · simp [collectFrom, imageRecsFor, List.enum, List.enumFrom, encodeImageOpt,
      hclip, h1, h2, Except.toOption]

theorem corrupt_image_drops_only_that_image_w :
    envW.encodeImage "bad.jpg" = .error "corrupt"
      ∧ envW.encodeImage "good.jpg" = .ok [1]
      ∧ (collectFrom envW 0 [articleGood]).texts
          = [⟨articleId 0, "T" ++ "\n\n" ++ "Body",
              envW.textEncode ("T" ++ "\n\n" ++ "Body"),
              mkMeta envW articleGood "T"⟩]
      ∧ (collectFrom envW 0 [articleGood]).images
          = [⟨imageId 0 1, "Image from: " ++ "T", [1],
              mkImageMeta (mkMeta envW articleGood "T") "good.jpg" 0⟩] :=
  have H := corrupt_image_drops_only_that_image envW 0 "T" "Body" none none []
    "bad.jpg" "good.jpg" "corrupt" [1] articleGood rfl rfl rfl rfl
  ⟨rfl, rfl, H.1, H.2⟩

/-- C5: an article missing its title or its content attribute is skipped
whole — the run continues with the same accumulated state (in particular
no record is collected for it and no embedding call is traced for it),
and later articles are unaffected (the index still advances). -/
theorem invalid_article_skipped_before_embedding :
    ∀ (env : Env) (i : Nat) (a : Article) (rest : List Article),
      a.title = none ∨ a.content = none →
      collectFrom env i (a :: rest) = collectFrom env (i + 1) rest := by
  intro env i a rest h
  rcases h with h | h
  · simp [collectFrom, h]
  · cases ht : a.title with
    | none => simp [collectFrom, ht]
    | some t => simp [collectFrom, ht, h]

theorem invalid_article_skipped_before_embedding_w :
    (articleBad.title = none ∨ articleBad.content = none)
      ∧ collectFrom envW 0 [articleBad, articleImgOnly]
          = collectFrom envW 1 [articleImgOnly] :=
  ⟨Or.inl rfl,
   invalid_article_skipped_before_embedding envW 0 articleBad [articleImgOnly]
     (Or.inl rfl)⟩

/-- C6: ingesting the same article sequence twice produces the same ids,
and the store's upsert semantics leave both partition counts (and hence
`get_stats`) unchanged after the second run. -/
theorem ingest_twice_counts_unchanged :
    ∀ (env : Env) (db : DB) (arts : List Article),
      (add_articles env (add_articles env db arts) arts).text.count
          = (add_articles env db arts).text.count
      ∧ (add_articles env (add_articles env db arts) arts).image.count
          = (add_articles env db arts).image.count
      ∧ get_stats (add_articles env (add_articles env db arts) arts)
          = get_stats (add_articles env db arts) := by
  intro env db arts
  have htext : (add_articles env (add_articles env db arts) arts).text.count
      = (add_articles env db arts).text.count := by
    rw [add_articles_text env (add_articles env db arts) arts,
      add_articles_text env db arts]
    by_cases h : (collectFrom env 0 arts).texts.isEmpty = true
    · simp only [if_pos h]
    · simp only [if_neg h]
      exact addBatch_twice_count _ _
  have himage : (add_articles env (add_articles env db arts) arts).image.count
      = (add_articles env db arts).image.count := by
    rw [add_articles_image env (add_articles env db arts) arts,
      add_articles_image env db arts]
    by_cases h : (collectFrom env 0 arts).images.isEmpty = true
    · simp only [if_pos h]
    · simp only [if_neg h]
      exact addBatch_twice_count _ _
  refine ⟨htext, himage, ?_⟩
  simp only [get_stats, htext, himage]

theorem parent_of_mem_imageRecsFor {env : Env} {i : Nat} {a : Article}
    {t : String} {m : Meta} {ir : Rec}
    (h : ir ∈ imageRecsFor env i a t m) :
    ir.meta.parent_article = articleId i := by
  unfold imageRecsFor at h
  rcases List.mem_filterMap.mp h with ⟨jp, hjp, hmatch⟩
  cases he : encodeImageOpt env jp.2 with
  | none =>
    rw [he] at hmatch
    simp at hmatch
  | some v =>
    rw [he] at hmatch
    injection hmatch with h2
    rw [← h2]
    rfl

/-- C7: every image record collected in a run carries a `parent_article`
that is the id of a text record collected in the same run — image records
exist only for articles whose text record was produced. -/
theorem image_parent_always_exists :
    ∀ (env : Env) (arts : List Article) (i : Nat) (ir : Rec),
      ir ∈ (collectFrom env i arts).images →
      ∃ tr, tr ∈ (collectFrom env i arts).texts
        ∧ ir.meta.parent_article = tr.id := by
  intro env arts
  induction arts with
  | nil =>
    intro i ir h
    simp [collectFrom] at h
  | cons a rest ih =>
    intro i ir h
    cases ht : a.title with
    | none =>
      simp only [collectFrom, ht] at h ⊢
      exact ih (i + 1) ir h
    | some t =>
      cases hc : a.content with
      | none =>
        simp only [collectFrom, ht, hc] at h ⊢
        exact ih (i + 1) ir h
      | some c =>
        simp only [collectFrom, ht, hc] at h ⊢
        rcases List.mem_append.mp h with h1 | h1
        · exact ⟨_, List.mem_cons_self _ _, parent_of_mem_imageRecsFor h1⟩
        · rcases ih (i + 1) ir h1 with ⟨tr, htr, hp⟩
          exact ⟨tr, List.mem_cons_of_mem _ htr, hp⟩

def irW : Rec :=
  ⟨imageId 0 0, "Image from: " ++ "T", [1],
    mkImageMeta (mkMeta envW articleImgOnly "T") "good.jpg" 0⟩

theorem image_parent_always_exists_w :
    irW ∈ (collectFrom envW 0 [articleImgOnly]).images
      ∧ ∃ tr, tr ∈ (collectFrom envW 0 [articleImgOnly]).texts
          ∧ irW.meta.parent_article = tr.id :=
  have hmem : irW ∈ (collectFrom envW 0 [articleImgOnly]).images :=
    List.mem_singleton.mpr rfl
  ⟨hmem, image_parent_always_exists envW [articleImgOnly] 0 irW hmem⟩
